import Mathlib

set_option maxHeartbeats 1000000

/-
Shallow embedding of the numeric core of src/preprocess.py (Chess Analytics
Preprocessor): the Epanechnikov kernel density estimator (lines 81-92), the
evaluation-grid construction (lines 68-76) and the global max-density scan
(lines 98-107).  Exact rational arithmetic (ℚ) stands in for IEEE floats for
the purely finite computations; a small explicit IEEE-style value type `FVal`
with NaN and signed infinities is used where non-finite behaviour is at stake.
-/

/-- Error taxonomy named by the specification (section 7).  The script itself
performs no validation and never raises any of these errors; the embedding
keeps the type so that the absence of failures is statable. -/
inductive PreprocessError where
  | emptyInput
  | invalidParameter
  | malformedObservation
deriving DecidableEq

/-- Row of kernel weights of one grid point against all observation values,
from src/preprocess.py lines 86-90: `u = (grid - value) / bw`,
`k = 0.75 * (1 - u**2)`, and entries with `np.abs(u) > 1` are zeroed. -/
def kernelRow (g : ℚ) (values : List ℚ) (bw : ℚ) : List ℚ :=
  values.map (fun v =>
    let u := (g - v) / bw
    let k := (3 / 4 : ℚ) * (1 - u ^ 2)
    if 1 < |u| then 0 else k)

/-- kde_epanechnikov from src/preprocess.py lines 81-92: for every grid point,
the mean of its kernel-weight row divided by the bandwidth
(`np.mean(k, axis=1) / bw`; the mean of a row is its sum over its length). -/
def kde_epanechnikov (values grid : List ℚ) (bw : ℚ) : List ℚ :=
  grid.map (fun g =>
    let k := kernelRow g values bw
    k.sum / (k.length : ℚ) / bw)

/-- Modelled from the spec (for the refinement comparison only): kernel weight
`0.75 * (1 - u^2)` when `|u| <= 1`, else `0`. -/
def specKernel (u : ℚ) : ℚ := if |u| ≤ 1 then (3 / 4 : ℚ) * (1 - u ^ 2) else 0

/-- Modelled from the spec (for the refinement comparison only): curve value at
`g` is `(sum of kernel weights over all values) / (len(values) * bandwidth)`. -/
def specCurveValue (values : List ℚ) (g bw : ℚ) : ℚ :=
  (values.map (fun v => specKernel ((g - v) / bw))).sum / ((values.length : ℚ) * bw)

theorem kernelRow_eq_map_specKernel (g : ℚ) (values : List ℚ) (bw : ℚ) :
    kernelRow g values bw = values.map (fun v => specKernel ((g - v) / bw)) := by
  simp only [kernelRow, specKernel]
  induction values with
  | nil => rfl
  | cons v vs ih =>
    simp only [List.map_cons, List.cons.injEq]
    refine ⟨?_, ih⟩
    rcases le_or_lt |(g - v) / bw| 1 with h | h
    · rw [if_neg (not_lt.mpr h), if_pos h]
    · rw [if_pos h, if_neg (not_le.mpr h)]

/-- C1: for every non-empty sequence of observation values, every grid and
every bandwidth `b > 0`, `kde_epanechnikov` returns a curve of the same length
as the grid whose value at each grid point `g` equals
`(sum over observations v of K((g - v)/b)) / (len(values) * b)` with
`K(u) = 0.75 * (1 - u^2)` for `|u| <= 1` and `0` otherwise. -/
theorem kde_matches_spec_density_formula (values grid : List ℚ) (bw : ℚ)
    (hv : values ≠ []) (hb : 0 < bw) :
    (kde_epanechnikov values grid bw).length = grid.length ∧
    ∀ i (hi : i < grid.length) (hi2 : i < (kde_epanechnikov values grid bw).length),
      (kde_epanechnikov values grid bw).get ⟨i, hi2⟩
        = specCurveValue values (grid.get ⟨i, hi⟩) bw := by
  constructor
  · simp [kde_epanechnikov]
  · intro i hi hi2
    simp only [kde_epanechnikov, List.get_eq_getElem, List.getElem_map]
    rw [kernelRow_eq_map_specKernel]
    simp only [specCurveValue, List.length_map]
    rw [div_div]

/-- Closed instance of C1 at a concrete input. -/
theorem kde_matches_spec_density_formula_witness :
    ([(1000 : ℚ), 1000, 1000] ≠ ([] : List ℚ)) ∧ ((0 : ℚ) < 40) ∧
    (kde_epanechnikov [(1000 : ℚ), 1000, 1000] [800, 900, 1000, 1100, 1200] 40).length
      = [(800 : ℚ), 900, 1000, 1100, 1200].length :=
  ⟨by decide, by decide,
    (kde_matches_spec_density_formula [1000, 1000, 1000] [800, 900, 1000, 1100, 1200] 40
      (by decide) (by decide)).1⟩

/-- Minimum of a rating column, from src/preprocess.py line 68
(`final_df['rating'].min()`); only ever applied to non-empty columns there. -/
def listMin (l : List ℚ) : ℚ := l.foldl min l.headI

/-- Maximum of a rating column, from src/preprocess.py line 69. -/
def listMax (l : List ℚ) : ℚ := l.foldl max l.headI

/-- Lower grid bound, src/preprocess.py line 74: `grid_min = min_r - padding`
with `padding = 100`. -/
def grid_min (observations : List ℚ) : ℚ := listMin observations - 100

/-- Upper grid bound, src/preprocess.py line 75: `grid_max = max_r + padding`. -/
def grid_max (observations : List ℚ) : ℚ := listMax observations + 100

/-- np.linspace(a, b, n) in exact arithmetic: n samples `a + (b - a) * i / (n - 1)`;
for n = 1 the division by zero convention of ℚ yields the single sample `a`,
matching numpy's special case. -/
def linspace (a b : ℚ) (n : ℕ) : List ℚ :=
  (List.range n).map (fun i : ℕ => a + (b - a) * (i : ℚ) / ((n : ℚ) - 1))

/-- x_grid from src/preprocess.py line 76: `np.linspace(grid_min, grid_max, 60)`. -/
def x_grid (observations : List ℚ) : List ℚ :=
  linspace (grid_min observations) (grid_max observations) 60

theorem foldl_min_le (l : List ℚ) : ∀ a : ℚ, l.foldl min a ≤ a := by
  induction l with
  | nil => intro a; exact le_refl a
  | cons x xs ih => intro a; exact le_trans (ih (min a x)) (min_le_left a x)

theorem le_foldl_max (l : List ℚ) : ∀ a : ℚ, a ≤ l.foldl max a := by
  induction l with
  | nil => intro a; exact le_refl a
  | cons x xs ih => intro a; exact le_trans (le_max_left a x) (ih (max a x))

theorem listMin_le_listMax (l : List ℚ) (h : l ≠ []) : listMin l ≤ listMax l := by
  match l, h with
  | x :: xs, _ =>
    have h1 : listMin (x :: xs) ≤ x := by
      have : (x :: xs).foldl min (x :: xs).headI = xs.foldl min x := by
        simp [List.headI, List.foldl_cons]
      rw [listMin, this]
      exact foldl_min_le xs x
    have h2 : x ≤ listMax (x :: xs) := by
      have : (x :: xs).foldl max (x :: xs).headI = xs.foldl max x := by
        simp [List.headI, List.foldl_cons]
      rw [listMax, this]
      exact le_foldl_max xs x
    exact le_trans h1 h2

theorem linspace_length (a b : ℚ) (n : ℕ) : (linspace a b n).length = n := by
  simp only [linspace, List.length_map, List.length_range]

theorem linspace_get (a b : ℚ) (n i : ℕ) (h : i < (linspace a b n).length) :
    (linspace a b n).get ⟨i, h⟩ = a + (b - a) * (i : ℚ) / ((n : ℚ) - 1) := by
  simp only [linspace, List.get_eq_getElem, List.getElem_map, List.getElem_range]

/-- C4: for every non-empty observation list, the grid built by the source
(np.linspace over the padded rating range, 60 points, padding 100) has exactly
60 strictly increasing evenly spaced values, the first being
`min(observations) - 100` and the last `max(observations) + 100`. -/
theorem x_grid_shape (obs : List ℚ) (h : obs ≠ []) :
    (x_grid obs).length = 60 ∧
    List.Pairwise (fun p q : ℚ => p < q) (x_grid obs) ∧
    (∀ i (h1 : i < (x_grid obs).length) (h2 : i + 1 < (x_grid obs).length),
      (x_grid obs).get ⟨i + 1, h2⟩ - (x_grid obs).get ⟨i, h1⟩
        = (grid_max obs - grid_min obs) / 59) ∧
    (x_grid obs).head? = some (grid_min obs) ∧
    (x_grid obs).getLast? = some (grid_max obs) := by
  have hab : grid_min obs < grid_max obs := by
    have := listMin_le_listMax obs h
    rw [grid_min, grid_max]; linarith
  have hd : 0 < (grid_max obs - grid_min obs) / 59 :=
    div_pos (by linarith) (by norm_num)
  have hlen : (x_grid obs).length = 60 := linspace_length _ _ 60
  have hget : ∀ i (hi : i < (x_grid obs).length),
      (x_grid obs)[i] = grid_min obs + (grid_max obs - grid_min obs) * (i : ℚ) / 59 := by
    intro i hi
    have h2 := linspace_get (grid_min obs) (grid_max obs) 60 i hi
    norm_num at h2
    exact h2
  refine ⟨hlen, ?_, ?_, ?_, ?_⟩
  · rw [← List.chain'_iff_pairwise, List.chain'_iff_get]
    intro i hi
    simp only [List.get_eq_getElem]
    rw [hget i (by omega), hget (i + 1) (by omega)]
    have key : grid_min obs + (grid_max obs - grid_min obs) * ((i + 1 : ℕ) : ℚ) / 59
        = grid_min obs + (grid_max obs - grid_min obs) * (i : ℚ) / 59
          + (grid_max obs - grid_min obs) / 59 := by
      push_cast; ring
    rw [key]; linarith
  · intro i h1 h2
    simp only [List.get_eq_getElem]
    rw [hget i h1, hget (i + 1) h2]
    push_cast; ring
  · rw [List.head?_eq_getElem?]
    have h0 : 0 < (x_grid obs).length := by rw [hlen]; norm_num
    rw [List.getElem?_eq_getElem h0, hget 0 h0]
    norm_num
  · rw [List.getLast?_eq_getElem?, hlen]
    have h59 : 59 < (x_grid obs).length := by rw [hlen]; norm_num
    show (x_grid obs)[59]? = some (grid_max obs)
    rw [List.getElem?_eq_getElem h59, hget 59 h59]
    simp only [Option.some.injEq]
    push_cast; ring

/-- Closed instance of C4 at a concrete input. -/
theorem x_grid_shape_witness :
    ([(1000 : ℚ)] ≠ ([] : List ℚ)) ∧ (x_grid [(1000 : ℚ)]).length = 60 :=
  ⟨by decide, (x_grid_shape [(1000 : ℚ)] (by decide)).1⟩

/-- np.max of a density curve (src/preprocess.py line 105).  np.max raises on
an empty array; the `[]` case below is a junk default that the program never
reaches because the curve has one value per grid point and the grid has 60
points. -/
def listPeak : List ℚ → ℚ
  | [] => 0
  | x :: xs => xs.foldl max x

/-- One iteration of the scan loop, src/preprocess.py lines 101-107: skip a
month with no ratings, otherwise compute the density curve, take its peak and
replace the accumulator when the peak exceeds it (`if peak > global_max_density`). -/
def scan_step {α : Type} (grid : List ℚ) (bw : ℚ) (acc : ℚ) (pr : α × List ℚ) : ℚ :=
  if 0 < pr.2.length then
    let peak := listPeak (kde_epanechnikov pr.2 grid bw)
    if acc < peak then peak else acc
  else acc

/-- global_max_density, src/preprocess.py lines 98-107: accumulator starts at 0
and the loop folds scan_step over every month key present in the input. -/
def global_max_density {α : Type} (periods : List (α × List ℚ)) (grid : List ℚ)
    (bw : ℚ) : ℚ :=
  periods.foldl (scan_step grid bw) 0

theorem le_scan_step {α : Type} (grid : List ℚ) (bw : ℚ) (acc : ℚ) (p : α × List ℚ) :
    acc ≤ scan_step grid bw acc p := by
  simp only [scan_step]
  split_ifs with h1 h2
  · exact le_of_lt h2
  · exact le_refl acc
  · exact le_refl acc

theorem scan_step_max {α : Type} (grid : List ℚ) (bw : ℚ) (acc : ℚ) (p : α × List ℚ)
    (h : 0 ≤ acc) :
    scan_step grid bw acc p = max acc (scan_step grid bw 0 p) := by
  simp only [scan_step, max_def]
  split_ifs <;> first | rfl | linarith

theorem le_foldl_scan_step {α : Type} (grid : List ℚ) (bw : ℚ) :
    ∀ (l : List (α × List ℚ)) (acc : ℚ), acc ≤ l.foldl (scan_step grid bw) acc := by
  intro l
  induction l with
  | nil => intro acc; exact le_refl acc
  | cons p ps ih =>
    intro acc
    exact le_trans (le_scan_step grid bw acc p) (ih (scan_step grid bw acc p))

theorem foldl_scan_step_init {α : Type} (grid : List ℚ) (bw : ℚ) :
    ∀ (l : List (α × List ℚ)) (acc : ℚ), 0 ≤ acc →
      l.foldl (scan_step grid bw) acc = max acc (l.foldl (scan_step grid bw) 0) := by
  intro l
  induction l with
  | nil =>
    intro acc h
    simp only [List.foldl_nil]
    exact (max_eq_left h).symm
  | cons p ps ih =>
    intro acc h
    have h0p : 0 ≤ scan_step grid bw 0 p := le_scan_step grid bw 0 p
    have hacc : 0 ≤ scan_step grid bw acc p :=
      le_trans h (le_scan_step grid bw acc p)
    calc (p :: ps).foldl (scan_step grid bw) acc
        = ps.foldl (scan_step grid bw) (scan_step grid bw acc p) := rfl
      _ = max (scan_step grid bw acc p) (ps.foldl (scan_step grid bw) 0) := ih _ hacc
      _ = max (max acc (scan_step grid bw 0 p)) (ps.foldl (scan_step grid bw) 0) := by
          rw [scan_step_max grid bw acc p h]
      _ = max acc (max (scan_step grid bw 0 p) (ps.foldl (scan_step grid bw) 0)) :=
          max_assoc _ _ _
      _ = max acc (ps.foldl (scan_step grid bw) (scan_step grid bw 0 p)) := by
          rw [← ih _ h0p]
      _ = max acc ((p :: ps).foldl (scan_step grid bw) 0) := rfl

theorem global_max_density_cons {α : Type} (p : α × List ℚ) (l : List (α × List ℚ))
    (grid : List ℚ) (bw : ℚ) :
    global_max_density (p :: l) grid bw
      = max (scan_step grid bw 0 p) (global_max_density l grid bw) :=
  foldl_scan_step_init grid bw l _ (le_scan_step grid bw 0 p)

theorem global_max_density_nonneg {α : Type} (l : List (α × List ℚ)) (grid : List ℚ)
    (bw : ℚ) : 0 ≤ global_max_density l grid bw :=
  le_foldl_scan_step grid bw l 0

theorem peak_le_scan_step_zero {α : Type} (grid : List ℚ) (bw : ℚ) (p : α × List ℚ)
    (hp : p.2 ≠ []) :
    listPeak (kde_epanechnikov p.2 grid bw) ≤ scan_step grid bw 0 p := by
  have hlen : 0 < p.2.length := List.length_pos.mpr hp
  simp only [scan_step, if_pos hlen]
  split_ifs with h
  · exact le_refl _
  · exact not_lt.mp h

theorem peak_le_global {α : Type} (grid : List ℚ) (bw : ℚ) :
    ∀ (l : List (α × List ℚ)) (p : α × List ℚ), p ∈ l → p.2 ≠ [] →
      listPeak (kde_epanechnikov p.2 grid bw) ≤ global_max_density l grid bw := by
  intro l
  induction l with
  | nil => intro p hp; cases hp
  | cons q qs ih =>
    intro p hp hpne
    rw [global_max_density_cons]
    rcases List.mem_cons.mp hp with h | h
    · subst h
      exact le_trans (peak_le_scan_step_zero grid bw p hpne) (le_max_left _ _)
    · exact le_trans (ih p h hpne) (le_max_right _ _)

theorem foldl_max_init (l : List ℚ) :
    ∀ a b : ℚ, l.foldl max (max a b) = max a (l.foldl max b) := by
  induction l with
  | nil => intro a b; rfl
  | cons x xs ih =>
    intro a b
    show xs.foldl max (max (max a b) x) = max a (xs.foldl max (max b x))
    rw [max_assoc]
    exact ih a (max b x)

theorem global_eq_foldl_contribs {α : Type} (grid : List ℚ) (bw : ℚ) :
    ∀ l : List (α × List ℚ),
      global_max_density l grid bw
        = (l.map (fun p => scan_step grid bw 0 p)).foldl max 0 := by
  intro l
  induction l with
  | nil => rfl
  | cons p ps ih =>
    rw [global_max_density_cons, ih]
    simp only [List.map_cons, List.foldl_cons]
    have h0p : 0 ≤ scan_step grid bw 0 p := le_scan_step grid bw 0 p
    calc max (scan_step grid bw 0 p)
            ((ps.map (fun p => scan_step grid bw 0 p)).foldl max 0)
        = (ps.map (fun p => scan_step grid bw 0 p)).foldl max
            (max (scan_step grid bw 0 p) 0) := (foldl_max_init _ _ 0).symm
      _ = (ps.map (fun p => scan_step grid bw 0 p)).foldl max
            (scan_step grid bw 0 p) := by rw [max_eq_left h0p]
      _ = (ps.map (fun p => scan_step grid bw 0 p)).foldl max
            (max 0 (scan_step grid bw 0 p)) := by rw [max_eq_right h0p]

theorem global_max_density_append {α : Type} (A B : List (α × List ℚ))
    (grid : List ℚ) (bw : ℚ) :
    global_max_density (A ++ B) grid bw
      = max (global_max_density A grid bw) (global_max_density B grid bw) := by
  show (A ++ B).foldl (scan_step grid bw) 0 = _
  rw [List.foldl_append]
  exact foldl_scan_step_init grid bw B _ (le_foldl_scan_step grid bw A 0)

theorem global_max_density_perm {α : Type} (grid : List ℚ) (bw : ℚ)
    {l₁ l₂ : List (α × List ℚ)} (h : List.Perm l₁ l₂) :
    global_max_density l₁ grid bw = global_max_density l₂ grid bw := by
  induction h with
  | nil => rfl
  | cons p h ih => rw [global_max_density_cons, global_max_density_cons, ih]
  | swap x y l =>
    rw [global_max_density_cons, global_max_density_cons,
        global_max_density_cons, global_max_density_cons]
    rw [max_left_comm]
  | trans h1 h2 ih1 ih2 => rw [ih1, ih2]

theorem scan_step_of_peak_lt {α : Type} (grid : List ℚ) (bw : ℚ) (acc : ℚ)
    (p : α × List ℚ) (h : listPeak (kde_epanechnikov p.2 grid bw) < acc) :
    scan_step grid bw acc p = acc := by
  simp only [scan_step]
  split_ifs with h1 h2
  · linarith
  · rfl
  · rfl

theorem scan_step_zero_eq_max {α : Type} (grid : List ℚ) (bw : ℚ) (p : α × List ℚ)
    (hp : 0 < p.2.length) :
    scan_step grid bw 0 p = max 0 (listPeak (kde_epanechnikov p.2 grid bw)) := by
  simp only [scan_step, if_pos hp, max_def]
  split_ifs <;> first | rfl | linarith

theorem global_eq_filtered_peaks {α : Type} (grid : List ℚ) (bw : ℚ) :
    ∀ l : List (α × List ℚ),
      global_max_density l grid bw
        = ((l.filter (fun q => !q.2.isEmpty)).map
            (fun q => listPeak (kde_epanechnikov q.2 grid bw))).foldl max 0 := by
  intro l
  induction l with
  | nil => rfl
  | cons p ps ih =>
    rw [global_max_density_cons, ih]
    by_cases hp : p.2.isEmpty
    · have hfilter : (p :: ps).filter (fun q => !q.2.isEmpty)
          = ps.filter (fun q => !q.2.isEmpty) := by
        rw [List.filter_cons_of_neg]; simp [hp]
      have hstep : scan_step grid bw 0 p = 0 := by
        have hlen : ¬ 0 < p.2.length := by
          rw [List.isEmpty_iff] at hp
          rw [hp]; simp
        simp only [scan_step, if_neg hlen]
      rw [hfilter, hstep]
      exact max_eq_right (le_foldl_max _ 0)
    · have hfilter : (p :: ps).filter (fun q => !q.2.isEmpty)
          = p :: ps.filter (fun q => !q.2.isEmpty) := by
        rw [List.filter_cons_of_pos]; simp [hp]
      have hne : p.2 ≠ [] := by
        intro e
        exact hp (by rw [e]; rfl)
      have hlen : 0 < p.2.length := List.length_pos.mpr hne
      rw [hfilter, scan_step_zero_eq_max grid bw p hlen]
      simp only [List.map_cons, List.foldl_cons]
      set pk := listPeak (kde_epanechnikov p.2 grid bw) with hpk
      set L := (ps.filter (fun q => !q.2.isEmpty)).map
          (fun q => listPeak (kde_epanechnikov q.2 grid bw)) with hL
      calc max (max 0 pk) (L.foldl max 0)
          = L.foldl max (max (max 0 pk) 0) := (foldl_max_init L (max 0 pk) 0).symm
        _ = L.foldl max (max 0 pk) := by rw [max_eq_left (le_max_left 0 pk)]

/-- C2: for every mapping from period keys to observation lists, every
evaluation grid as built by the program (non-empty) and every bandwidth b > 0,
the global-max scan returns a value that is nonnegative and at least the peak
of every non-empty period's density curve; the fold contributes exactly one
scan step per period entry. -/
theorem global_max_bounds_every_peak {α : Type} (periods : List (α × List ℚ))
    (grid : List ℚ) (bw : ℚ) (hg : grid ≠ []) (hb : 0 < bw) :
    0 ≤ global_max_density periods grid bw ∧
    (∀ p ∈ periods, p.2 ≠ [] →
      listPeak (kde_epanechnikov p.2 grid bw) ≤ global_max_density periods grid bw) ∧
    global_max_density periods grid bw
      = (periods.map (fun p => scan_step grid bw 0 p)).foldl max 0 :=
  ⟨global_max_density_nonneg periods grid bw,
   fun p hp hpne => peak_le_global grid bw periods p hp hpne,
   global_eq_foldl_contribs grid bw periods⟩

/-- Closed instance of C2 at a concrete input. -/
theorem global_max_bounds_every_peak_witness :
    ([(0 : ℚ)] ≠ ([] : List ℚ)) ∧ ((0 : ℚ) < 1) ∧
    0 ≤ global_max_density [((0 : ℕ), [(0 : ℚ)])] [(0 : ℚ)] 1 :=
  ⟨by decide, by decide,
    (global_max_bounds_every_peak [((0 : ℕ), [(0 : ℚ)])] [(0 : ℚ)] 1
      (by decide) (by decide)).1⟩

/-- C3: the global-max scan over the concatenation of two period sets equals
the max of the scans over the parts, and permuting the iteration order of the
periods never changes the result. -/
theorem global_max_union_and_order_independent {α : Type}
    (A B l₁ l₂ : List (α × List ℚ)) (grid : List ℚ) (bw : ℚ)
    (hperm : List.Perm l₁ l₂) :
    global_max_density (A ++ B) grid bw
      = max (global_max_density A grid bw) (global_max_density B grid bw) ∧
    global_max_density l₁ grid bw = global_max_density l₂ grid bw :=
  ⟨global_max_density_append A B grid bw, global_max_density_perm grid bw hperm⟩

/-- Closed instance of C3 at a concrete input: a two-element swap. -/
theorem global_max_union_and_order_independent_witness :
    List.Perm [((0 : ℕ), [(1 : ℚ)]), (1, [2])] [((1 : ℕ), [(2 : ℚ)]), (0, [1])] ∧
    global_max_density ([((0 : ℕ), [(5 : ℚ)])] ++ [(1, ([] : List ℚ))]) [(0 : ℚ)] 1
      = max (global_max_density [((0 : ℕ), [(5 : ℚ)])] [(0 : ℚ)] 1)
          (global_max_density [((1 : ℕ), ([] : List ℚ))] [(0 : ℚ)] 1) ∧
    global_max_density [((0 : ℕ), [(1 : ℚ)]), (1, [2])] [(0 : ℚ)] 1
      = global_max_density [((1 : ℕ), [(2 : ℚ)]), (0, [1])] [(0 : ℚ)] 1 := by
  have hperm : List.Perm [((0 : ℕ), [(1 : ℚ)]), (1, [2])] [((1 : ℕ), [(2 : ℚ)]), (0, [1])] :=
    List.Perm.swap ((1 : ℕ), [(2 : ℚ)]) ((0 : ℕ), [(1 : ℚ)]) []
  have h := global_max_union_and_order_independent
    [((0 : ℕ), [(5 : ℚ)])] [(1, ([] : List ℚ))]
    [((0 : ℕ), [(1 : ℚ)]), (1, [2])] [((1 : ℕ), [(2 : ℚ)]), (0, [1])]
    [(0 : ℚ)] 1 hperm
  exact ⟨hperm, h.1, h.2⟩

/-- C9: at every step of the global-max scan the accumulator never decreases;
after any processed list the accumulator equals the max of 0 and the peaks of
the non-empty periods processed so far; and a step whose peak is below the
current accumulator leaves the accumulator unchanged. -/
theorem global_scan_accumulator_invariant {α : Type} (grid : List ℚ) (bw : ℚ) :
    (∀ (acc : ℚ) (p : α × List ℚ), acc ≤ scan_step grid bw acc p) ∧
    (∀ l : List (α × List ℚ),
      global_max_density l grid bw
        = ((l.filter (fun q => !q.2.isEmpty)).map
            (fun q => listPeak (kde_epanechnikov q.2 grid bw))).foldl max 0) ∧
    (∀ (acc : ℚ) (p : α × List ℚ),
      listPeak (kde_epanechnikov p.2 grid bw) < acc → scan_step grid bw acc p = acc) :=
  ⟨fun acc p => le_scan_step grid bw acc p,
   fun l => global_eq_filtered_peaks grid bw l,
   fun acc p h => scan_step_of_peak_lt grid bw acc p h⟩

/-- Closed instance of C9 at a concrete input: peak 3/4 below accumulator 1
leaves the accumulator unchanged. -/
theorem global_scan_accumulator_invariant_witness :
    listPeak (kde_epanechnikov [(0 : ℚ)] [(0 : ℚ)] 1) < 1 ∧
    scan_step [(0 : ℚ)] 1 1 ((0 : ℕ), [(0 : ℚ)]) = 1 :=
  ⟨by norm_num [kde_epanechnikov, kernelRow, listPeak],
    (global_scan_accumulator_invariant [(0 : ℚ)] 1).2.2 1 ((0 : ℕ), [(0 : ℚ)])
      (by norm_num [kde_epanechnikov, kernelRow, listPeak])⟩

/-- C8: with a non-empty values list and a positive bandwidth, every value of
the computed density curve is nonnegative: the masked kernel weights are all
nonnegative and so are the divisors. -/
theorem kde_curve_nonneg (values grid : List ℚ) (bw : ℚ)
    (hv : values ≠ []) (hb : 0 < bw) :
    ∀ x ∈ kde_epanechnikov values grid bw, 0 ≤ x := by
  intro x hx
  simp only [kde_epanechnikov] at hx
  rcases List.mem_map.mp hx with ⟨g, hg, rfl⟩
  apply div_nonneg _ (le_of_lt hb)
  apply div_nonneg _ (Nat.cast_nonneg _)
  apply List.sum_nonneg
  intro k hk
  simp only [kernelRow] at hk
  rcases List.mem_map.mp hk with ⟨v, hv2, rfl⟩
  split_ifs with h
  · exact le_refl 0
  · have h2 : |(g - v) / bw| ≤ 1 := not_lt.mp h
    have h3 : ((g - v) / bw) ^ 2 ≤ 1 := by
      calc ((g - v) / bw) ^ 2 = |(g - v) / bw| ^ 2 := (sq_abs _).symm
        _ ≤ 1 ^ 2 := pow_le_pow_left (abs_nonneg _) h2 2
        _ = 1 := one_pow 2
    have h4 : (0 : ℚ) ≤ 1 - ((g - v) / bw) ^ 2 := by linarith
    have h5 : (0 : ℚ) ≤ 3 / 4 := by norm_num
    exact mul_nonneg h5 h4

/-- Closed instance of C8 at a concrete input. -/
theorem kde_curve_nonneg_witness :
    ([(0 : ℚ)] ≠ ([] : List ℚ)) ∧ ((0 : ℚ) < 1) ∧
    ((3 / 4 : ℚ) ∈ kde_epanechnikov [(0 : ℚ)] [(0 : ℚ)] 1 ∧ (0 : ℚ) ≤ 3 / 4) :=
  ⟨by decide, by decide,
    by norm_num [kde_epanechnikov, kernelRow],
    kde_curve_nonneg [(0 : ℚ)] [(0 : ℚ)] 1 (by decide) (by decide) (3 / 4)
      (by norm_num [kde_epanechnikov, kernelRow])⟩

/-- Error channel of the density estimator made explicit: the source performs
no validation at all inside kde_epanechnikov (no bandwidth check and no
emptiness check), so every input yields `.ok` of the computed curve. -/
def kde_epanechnikovE (values grid : List ℚ) (bw : ℚ) :
    Except PreprocessError (List ℚ) :=
  .ok (kde_epanechnikov values grid bw)

/-- C6 counterexample: at the non-positive bandwidth -1 the estimator does not
fail with InvalidParameterError; it returns the curve [-3/4] (a negative
density value) for values [0] on the one-point grid [0]. -/
theorem kde_nonpositive_bandwidth_no_error :
    kde_epanechnikovE [(0 : ℚ)] [(0 : ℚ)] (-1)
      ≠ Except.error PreprocessError.invalidParameter ∧
    kde_epanechnikov [(0 : ℚ)] [(0 : ℚ)] (-1) = [-(3 / 4 : ℚ)] := by
  constructor
  · intro h
    exact Except.noConfusion h
  · norm_num [kde_epanechnikov, kernelRow]

/-- C6 amended: the estimator performs no bandwidth validation; for every
bandwidth, positive or not, it returns `.ok` of a curve and never an
InvalidParameterError. -/
theorem kde_any_bandwidth_returns_ok (values grid : List ℚ) (bw : ℚ)
    (hb : bw ≤ 0) :
    ∃ curve, kde_epanechnikovE values grid bw = Except.ok curve :=
  ⟨kde_epanechnikov values grid bw, rfl⟩

/-- Closed instance of the amended C6 at a concrete input. -/
theorem kde_any_bandwidth_returns_ok_witness :
    ((-1 : ℚ) ≤ 0) ∧
    ∃ curve, kde_epanechnikovE [(0 : ℚ)] [(0 : ℚ)] (-1) = Except.ok curve :=
  ⟨by norm_num, kde_any_bandwidth_returns_ok [(0 : ℚ)] [(0 : ℚ)] (-1) (by norm_num)⟩

/-- IEEE-style scalar for the non-finite behaviour of the script: a finite
rational, the two signed infinities, or NaN.  Zero is modelled as +0. -/
inductive FVal where
  | fin : ℚ → FVal
  | pinf : FVal
  | ninf : FVal
  | nan : FVal
deriving DecidableEq

/-- IEEE addition: NaN propagates, opposite infinities give NaN. -/
def addF : FVal → FVal → FVal
  | .nan, _ => .nan
  | _, .nan => .nan
  | .fin a, .fin b => .fin (a + b)
  | .pinf, .ninf => .nan
  | .ninf, .pinf => .nan
  | .pinf, _ => .pinf
  | _, .pinf => .pinf
  | .ninf, _ => .ninf
  | _, .ninf => .ninf

/-- IEEE subtraction: NaN propagates, same-signed infinities give NaN. -/
def subF : FVal → FVal → FVal
  | .nan, _ => .nan
  | _, .nan => .nan
  | .fin a, .fin b => .fin (a - b)
  | .pinf, .pinf => .nan
  | .ninf, .ninf => .nan
  | .pinf, _ => .pinf
  | .ninf, _ => .ninf
  | _, .pinf => .ninf
  | _, .ninf => .pinf

/-- IEEE multiplication: NaN propagates, infinity times zero is NaN,
otherwise signs multiply. -/
def mulF : FVal → FVal → FVal
  | .nan, _ => .nan
  | _, .nan => .nan
  | .fin a, .fin b => .fin (a * b)
  | .pinf, .pinf => .pinf
  | .pinf, .ninf => .ninf
  | .ninf, .pinf => .ninf
  | .ninf, .ninf => .pinf
  | .pinf, .fin b => if b = 0 then .nan else if 0 < b then .pinf else .ninf
  | .fin a, .pinf => if a = 0 then .nan else if 0 < a then .pinf else .ninf
  | .ninf, .fin b => if b = 0 then .nan else if 0 < b then .ninf else .pinf
  | .fin a, .ninf => if a = 0 then .nan else if 0 < a then .ninf else .pinf

/-- IEEE division: NaN propagates, 0/0 and inf/inf are NaN, nonzero/0 is a
signed infinity, finite/inf is 0 (zero modelled as +0). -/
def divF : FVal → FVal → FVal
  | .nan, _ => .nan
  | _, .nan => .nan
  | .fin a, .fin b =>
      if b = 0 then (if a = 0 then .nan else if 0 < a then .pinf else .ninf)
      else .fin (a / b)
  | .fin _, .pinf => .fin 0
  | .fin _, .ninf => .fin 0
  | .pinf, .fin b => if 0 ≤ b then .pinf else .ninf
  | .ninf, .fin b => if 0 ≤ b then .ninf else .pinf
  | .pinf, .pinf => .nan
  | .pinf, .ninf => .nan
  | .ninf, .pinf => .nan
  | .ninf, .ninf => .nan

/-- IEEE absolute value (np.abs): NaN propagates, infinities map to +inf. -/
def absF : FVal → FVal
  | .fin a => .fin |a|
  | .nan => .nan
  | _ => .pinf

/-- IEEE strict greater-than as a Bool, as numpy comparisons behave: any
comparison with NaN is false. -/
def gtF : FVal → FVal → Bool
  | .nan, _ => false
  | _, .nan => false
  | .fin a, .fin b => decide (b < a)
  | .pinf, .pinf => false
  | .pinf, _ => true
  | _, .pinf => false
  | .ninf, _ => false
  | _, .ninf => true

/-- np.maximum on two scalars: NaN if either argument is NaN, else the larger. -/
def maxF (a b : FVal) : FVal :=
  if a = FVal.nan ∨ b = FVal.nan then FVal.nan
  else if gtF a b then a else b

/-- np.max of a non-empty array via np.maximum; np.max raises on an empty
array, a case the program never reaches (the grid has 60 points), covered
here by a junk default. -/
def npMaxF : List FVal → FVal
  | [] => FVal.fin 0
  | x :: xs => xs.foldl maxF x

/-- kernelRow of src/preprocess.py lines 86-90 in IEEE-style arithmetic. -/
def kernelRowF (g : FVal) (values : List FVal) (bw : FVal) : List FVal :=
  values.map (fun v =>
    let u := divF (subF g v) bw
    let k := mulF (.fin (3 / 4)) (subF (.fin 1) (mulF u u))
    if gtF (absF u) (.fin 1) then .fin 0 else k)

/-- np.mean of a row: its sum over its length; for an empty row this is the
IEEE 0/0, namely NaN, exactly as numpy warns and returns. -/
def meanF (l : List FVal) : FVal :=
  divF (l.foldl addF (.fin 0)) (.fin (l.length : ℚ))

/-- kde_epanechnikov of src/preprocess.py lines 81-92 in IEEE-style
arithmetic. -/
def kde_epanechnikovF (values grid : List FVal) (bw : FVal) : List FVal :=
  grid.map (fun g => divF (meanF (kernelRowF g values bw)) bw)

/-- scan_step of src/preprocess.py lines 101-107 in IEEE-style arithmetic:
the update comparison `peak > global_max_density` is an IEEE comparison, so a
NaN peak never updates the accumulator. -/
def scan_stepF {α : Type} (grid : List FVal) (bw : FVal) (acc : FVal)
    (pr : α × List FVal) : FVal :=
  if 0 < pr.2.length then
    let peak := npMaxF (kde_epanechnikovF pr.2 grid bw)
    if gtF peak acc then peak else acc
  else acc

/-- global_max_density of src/preprocess.py lines 98-107 in IEEE-style
arithmetic. -/
def global_max_densityF {α : Type} (periods : List (α × List FVal))
    (grid : List FVal) (bw : FVal) : FVal :=
  periods.foldl (scan_stepF grid bw) (.fin 0)

/-- Error channel of the scan made explicit: the source performs no
validation of rating values anywhere in the loop, so every input yields
`.ok` of the computed maximum. -/
def global_max_densityFE {α : Type} (periods : List (α × List FVal))
    (grid : List FVal) (bw : FVal) : Except PreprocessError FVal :=
  .ok (global_max_densityF periods grid bw)

/-- Modelled min of a pandas numeric column (`final_df['rating'].min()`,
src/preprocess.py line 68): NaN on an empty column, otherwise a fold that
skips NaN entries (pandas default skipna). -/
def seriesMin : List FVal → FVal
  | [] => .nan
  | x :: xs => xs.foldl (fun a b =>
      if b = FVal.nan then a
      else if a = FVal.nan then b
      else if gtF a b then b else a) x

/-- Modelled max of a pandas numeric column, src/preprocess.py line 69. -/
def seriesMax : List FVal → FVal
  | [] => .nan
  | x :: xs => xs.foldl (fun a b =>
      if b = FVal.nan then a
      else if a = FVal.nan then b
      else if gtF a b then a else b) x

/-- np.linspace in IEEE-style arithmetic, src/preprocess.py line 76. -/
def linspaceF (a b : FVal) (n : ℕ) : List FVal :=
  (List.range n).map (fun i : ℕ =>
    addF a (divF (mulF (subF b a) (.fin (i : ℚ))) (.fin ((n : ℚ) - 1))))

/-- x_grid of src/preprocess.py lines 68-76 in IEEE-style arithmetic,
padding 100 and 60 points as in the source. -/
def x_gridF (observations : List FVal) : List FVal :=
  linspaceF (subF (seriesMin observations) (.fin 100))
    (addF (seriesMax observations) (.fin 100)) 60

/-- Error channel of the grid construction made explicit: the source has no
emptiness check, so every input yields `.ok` of the computed grid. -/
def x_gridFE (observations : List FVal) : Except PreprocessError (List FVal) :=
  .ok (x_gridF observations)

theorem addF_nan_left (b : FVal) : addF .nan b = .nan := by cases b <;> rfl

theorem addF_nan_right (a : FVal) : addF a .nan = .nan := by cases a <;> rfl

theorem subF_nan_right (a : FVal) : subF a .nan = .nan := by cases a <;> rfl

theorem mulF_nan_left (b : FVal) : mulF .nan b = .nan := by cases b <;> rfl

theorem mulF_nan_right (a : FVal) : mulF a .nan = .nan := by cases a <;> rfl

theorem divF_nan_left (b : FVal) : divF .nan b = .nan := by cases b <;> rfl

theorem gtF_nan_left (b : FVal) : gtF .nan b = false := by cases b <;> rfl

theorem maxF_nan_left (b : FVal) : maxF .nan b = .nan := by
  simp [maxF]

theorem foldl_addF_nan (l : List FVal) : l.foldl addF .nan = .nan := by
  induction l with
  | nil => rfl
  | cons x xs ih => rw [List.foldl_cons, addF_nan_left, ih]

theorem foldl_addF_eq_nan_of_mem (l : List FVal) (h : FVal.nan ∈ l) :
    ∀ a : FVal, l.foldl addF a = .nan := by
  induction l with
  | nil => cases h
  | cons x xs ih =>
    intro a
    rcases List.mem_cons.mp h with hx | hx
    · rw [List.foldl_cons, ← hx, addF_nan_right, foldl_addF_nan]
    · rw [List.foldl_cons]
      exact ih hx (addF a x)

theorem foldl_maxF_nan (l : List FVal) : l.foldl maxF .nan = .nan := by
  induction l with
  | nil => rfl
  | cons x xs ih => rw [List.foldl_cons, maxF_nan_left, ih]

theorem nan_mem_kernelRowF (g : FVal) (values : List FVal) (bw : FVal)
    (h : FVal.nan ∈ values) : FVal.nan ∈ kernelRowF g values bw := by
  apply List.mem_map.mpr
  refine ⟨FVal.nan, h, ?_⟩
  simp only [subF_nan_right, divF_nan_left, mulF_nan_left, mulF_nan_right]
  rw [show absF FVal.nan = FVal.nan from rfl, gtF_nan_left]
  simp

theorem meanF_eq_nan_of_mem (l : List FVal) (h : FVal.nan ∈ l) : meanF l = .nan := by
  rw [meanF, foldl_addF_eq_nan_of_mem l h, divF_nan_left]

theorem map_const_of_forall_eq {β : Type} (l : List β) (f : β → FVal) (c : FVal)
    (h : ∀ x ∈ l, f x = c) : l.map f = l.map (fun _ => c) := by
  induction l with
  | nil => rfl
  | cons x xs ih =>
    simp only [List.map_cons]
    rw [h x (List.mem_cons_self x xs),
        ih (fun y hy => h y (List.mem_cons_of_mem x hy))]

theorem kdeF_all_nan (values grid : List FVal) (bw : FVal)
    (h : FVal.nan ∈ values) :
    kde_epanechnikovF values grid bw = grid.map (fun _ => FVal.nan) := by
  apply map_const_of_forall_eq
  intro g hg
  rw [meanF_eq_nan_of_mem _ (nan_mem_kernelRowF g values bw h), divF_nan_left]

theorem npMaxF_all_nan (grid : List FVal) (hg : grid ≠ []) :
    npMaxF (grid.map (fun _ => FVal.nan)) = FVal.nan := by
  match grid, hg with
  | x :: xs, _ =>
    simp only [List.map_cons, npMaxF]
    exact foldl_maxF_nan _

theorem scan_stepF_nan_period {α : Type} (grid : List FVal) (bw : FVal)
    (acc : FVal) (key : α) (vs : List FVal)
    (hmem : FVal.nan ∈ vs) (hg : grid ≠ []) :
    scan_stepF grid bw acc (key, vs) = acc := by
  have hlen : 0 < vs.length := List.length_pos.mpr (List.ne_nil_of_mem hmem)
  simp only [scan_stepF, if_pos hlen]
  rw [kdeF_all_nan vs grid bw hmem, npMaxF_all_nan grid hg, gtF_nan_left]
  simp

/-- C7 counterexample: a NaN rating reaching the core does not make the run
fail with MalformedObservationError; the scan returns `.ok 0`, the NaN period
having been silently dropped (its whole curve is NaN and `NaN > acc` is
false). -/
theorem nan_rating_no_error :
    global_max_densityFE [((0 : ℕ), [FVal.nan])] [FVal.fin 0] (FVal.fin 40)
      ≠ Except.error PreprocessError.malformedObservation ∧
    global_max_densityF [((0 : ℕ), [FVal.nan])] [FVal.fin 0] (FVal.fin 40)
      = FVal.fin 0 := by
  constructor
  · intro h
    exact Except.noConfusion h
  · rfl

/-- C7 amended: the code performs no finiteness validation; a period whose
values contain NaN makes its whole curve NaN, the NaN peak fails the
`peak > acc` comparison, and the period is silently dropped from the scan,
which returns `.ok` of the scan over the remaining periods and never an
error. -/
theorem nan_period_silently_dropped {α : Type} (l : List (α × List FVal))
    (key : α) (vs : List FVal) (grid : List FVal) (bw : FVal)
    (hmem : FVal.nan ∈ vs) (hg : grid ≠ []) :
    global_max_densityFE (l ++ [(key, vs)]) grid bw
      = Except.ok (global_max_densityF l grid bw) := by
  have hdrop : global_max_densityF (l ++ [(key, vs)]) grid bw
      = global_max_densityF l grid bw := by
    show (l ++ [(key, vs)]).foldl (scan_stepF grid bw) (.fin 0) = _
    rw [List.foldl_append, List.foldl_cons, List.foldl_nil]
    exact scan_stepF_nan_period grid bw _ key vs hmem hg
  show Except.ok (global_max_densityF (l ++ [(key, vs)]) grid bw)
      = Except.ok (global_max_densityF l grid bw)
  rw [hdrop]

/-- Closed instance of the amended C7 at a concrete input. -/
theorem nan_period_silently_dropped_witness :
    FVal.nan ∈ [FVal.nan] ∧ ([FVal.fin 0] ≠ ([] : List FVal)) ∧
    global_max_densityFE ([] ++ [((0 : ℕ), [FVal.nan])]) [FVal.fin 0] (FVal.fin 40)
      = Except.ok (global_max_densityF ([] : List (ℕ × List FVal)) [FVal.fin 0]
          (FVal.fin 40)) :=
  ⟨by decide, by decide,
    nan_period_silently_dropped [] (0 : ℕ) [FVal.nan] [FVal.fin 0] (FVal.fin 40)
      (by decide) (by decide)⟩

/-- C5 counterexample: on an empty observation set the grid construction does
not fail with EmptyInputError; it still produces a 60-point grid (whose
entries are all NaN, since the pandas min/max of an empty column is NaN). -/
theorem x_grid_empty_no_error :
    x_gridFE [] ≠ Except.error PreprocessError.emptyInput ∧
    (x_gridF []).length = 60 := by
  constructor
  · intro h
    exact Except.noConfusion h
  · rfl

/-- C5 amended: on an empty observation set the code raises nothing; the
pandas bounds are NaN and the constructed 60-point grid is all-NaN, returned
as `.ok`. -/
theorem x_grid_empty_produces_nan_grid :
    x_gridFE [] = Except.ok (List.replicate 60 FVal.nan) := by
  show Except.ok (x_gridF []) = Except.ok (List.replicate 60 FVal.nan)
  have h : x_gridF [] = List.replicate 60 FVal.nan := by decide
  rw [h]

/-- C10: the density estimator itself has no emptiness guard.  First, applied
to an empty values list it raises nothing and returns `.ok` of a curve.
Second, the mean then divides the zero sum by the zero observation count, so
in IEEE arithmetic every curve value is NaN: the result is undefined for
empty input.  Third, the only protection is the caller's length guard in the
scan loop, which skips an empty period and leaves the result unchanged. -/
theorem kde_no_empty_guard_caller_skips :
    (∀ (grid : List ℚ) (bw : ℚ),
      kde_epanechnikovE [] grid bw = Except.ok (kde_epanechnikov [] grid bw)) ∧
    (∀ (grid : List FVal) (bw : FVal),
      kde_epanechnikovF [] grid bw = grid.map (fun _ => FVal.nan)) ∧
    (∀ (α : Type) (l : List (α × List ℚ)) (key : α) (grid : List ℚ) (bw : ℚ),
      global_max_density (l ++ [(key, [])]) grid bw = global_max_density l grid bw) := by
  refine ⟨fun grid bw => rfl, ?_, ?_⟩
  · intro grid bw
    apply map_const_of_forall_eq
    intro g hg
    have h1 : kernelRowF g [] bw = [] := rfl
    have h2 : meanF ([] : List FVal) = FVal.nan := by
      simp [meanF, divF]
    rw [h1, h2, divF_nan_left]
  · intro α l key grid bw
    show (l ++ [(key, ([] : List ℚ))]).foldl (scan_step grid bw) 0 = _
    rw [List.foldl_append, List.foldl_cons, List.foldl_nil]
    simp [scan_step, global_max_density]
